import Mathlib

/-!
Verification development for bookgap (src/bookgap.py), a book-collection
gap finder.  The Python source is shallowly embedded below:

* `extractOne` embeds `rapidfuzz.process.extractOne(query, choices)`:
  it scans the choices left to right, keeps the best-scoring candidate
  (replacing only on a strictly greater score, so ties keep the first
  candidate encountered), and returns `none` when the choice list is
  empty — exactly the case in which the Python caller's tuple unpacking
  `match, score, _ = process.extractOne(...)` raises a `TypeError`.
  The similarity metric itself (rapidfuzz `WRatio`, an external library,
  scores in [0,100]) is taken as an explicit parameter `score`.

* `find_missing_books` embeds the core function of the same name.  The
  Python function obtains the bibliography via `get_author_works`; the
  embedding takes that resolved bibliography `all_works` directly as a
  parameter.  A raised exception is modelled as the result `none`.

* `get_author_works` embeds the provider function of the same name,
  parameterised by the HTTP response it would observe.

* `user_books` / `authors` embed the module-level UI pipeline lines
  `df["Title"].dropna().tolist()` and
  `df["Author"].dropna().unique().tolist()`.
-/

/-- One step of `rapidfuzz.process.extractOne`'s scan: fold over the
remaining choices keeping the best `(candidate, score)` pair seen so far,
replacing it only when a strictly greater score appears. -/
def extractOneAux (score : String → String → Nat) (query : String) :
    String × Nat → List String → String × Nat
  | best, [] => best
  | (bm, bs), c :: cs =>
    if score query c > bs then extractOneAux score query (c, score query c) cs
    else extractOneAux score query (bm, bs) cs

/-- Embedding of `rapidfuzz.process.extractOne(query, choices)` (the third
component of the returned tuple, an index, is discarded by the caller and
omitted).  Returns `none` on an empty choice list, as rapidfuzz does. -/
def extractOne (score : String → String → Nat) (query : String) :
    List String → Option (String × Nat)
  | [] => none
  | c :: cs => some (extractOneAux score query (c, score query c) cs)

/-- The matching loop of `find_missing_books`:

    for book in user_books:
        match, score, _ = process.extractOne(book, all_works)
        if score > 80:
            owned.append(match)

`none` models the `TypeError` raised when `extractOne` returns `None`
(empty `all_works`) and the tuple unpacking fails. -/
def matchOwned (score : String → String → Nat) :
    List String → List String → Option (List String)
  | [], _ => some []
  | book :: rest, all_works =>
    match extractOne score book all_works with
    | none => none
    | some (m, s) =>
      match matchOwned score rest all_works with
      | none => none
      | some owned => some (if s > 80 then m :: owned else owned)

/-- The membership test `book not in owned` of the list comprehension
`missing = [book for book in all_works if book not in owned]`. -/
def notMem (owned : List String) (book : String) : Bool := decide (book ∉ owned)

/-- Embedding of the core `find_missing_books(user_books, author_name,
newest_only)` after the bibliography `all_works = get_author_works(author_name)`
has been resolved:

    missing = [book for book in all_works if book not in owned]
    if newest_only and missing:
        return owned, [missing[-1]]
    return owned, missing

`none` models a raised exception. -/
def find_missing_books (score : String → String → Nat)
    (user_books all_works : List String) (newest_only : Bool) :
    Option (List String × List String) :=
  match matchOwned score user_books all_works with
  | none => none
  | some owned =>
    let missing := all_works.filter (notMem owned)
    if newest_only then
      match missing.getLast? with
      | some last => some (owned, [last])
      | none => some (owned, missing)
    else
      some (owned, missing)

/-- First-occurrence deduplication, with an accumulator of already-seen
strings.  Embeds Python's `list(set(works))` (whose order is
implementation-defined; only the element set and absence of duplicates
matter to the claims) and pandas' `.unique()` (first-occurrence order). -/
def uniqueFirstAux (seen : List String) : List String → List String
  | [] => []
  | a :: l =>
    if a ∈ seen then uniqueFirstAux seen l
    else a :: uniqueFirstAux (a :: seen) l

/-- Deduplicate a list of strings, keeping first occurrences. -/
def uniqueFirst (l : List String) : List String := uniqueFirstAux [] l

/-- One element of the `docs` array of the OpenLibrary JSON response:
only the presence and value of its `title` field matter. -/
structure Doc where
  title : Option String

/-- The HTTP response observed by `get_author_works`: its status code and
the `docs` array of the decoded JSON body (`data.get("docs", [])`). -/
structure Response where
  status_code : Nat
  docs : List Doc

/-- Embedding of the provider `get_author_works(author_name)`,
parameterised by the HTTP response it receives:

    if resp.status_code != 200:
        return []
    works = [doc["title"] for doc in data.get("docs", []) if "title" in doc]
    return list(set(works))  # dedupe
-/
def get_author_works (resp : Response) : List String :=
  if resp.status_code ≠ 200 then []
  else uniqueFirst (resp.docs.filterMap Doc.title)

/-- One row of the uploaded dataset: its `Title` and `Author` cells,
`none` meaning a missing (NaN) value. -/
structure Row where
  title : Option String
  author : Option String

/-- Pandas `Series.dropna()` on a column of optional strings. -/
def dropna : List (Option String) → List String := List.filterMap id

/-- Embedding of the UI pipeline line
`user_books = df["Title"].dropna().tolist()`. -/
def user_books (df : List Row) : List String := dropna (df.map Row.title)

/-- Embedding of the UI pipeline line
`authors = df["Author"].dropna().unique().tolist()`. -/
def authors (df : List Row) : List String :=
  uniqueFirst (dropna (df.map Row.author))

/-- Modelled from the spec: the external fuzzy similarity metric
(rapidfuzz `WRatio`, a library dependency, not part of this repository).
Per the spec it scores in [0,100], gives identical strings the maximal
score, and is tolerant of formatting differences; only its values on the
concrete titles of the spec's examples are used here (`WRatio` gives
`"Dune"` vs `"Dune Messiah"` a partial-ratio-scaled score of 90). -/
def wratioSpec (t c : String) : Nat :=
  if t = c then 100
  else if t = "Dune" ∧ c = "Dune Messiah" then 90
  else if t = "Dune Messiah" ∧ c = "Dune" then 90
  else 0

theorem notMem_iff (owned : List String) (b : String) :
    notMem owned b = true ↔ b ∉ owned := by
  simp [notMem]

theorem extractOneAux_fst_mem (score : String → String → Nat) (query : String) :
    ∀ (l : List String) (b : String × Nat),
      (extractOneAux score query b l).1 = b.1 ∨ (extractOneAux score query b l).1 ∈ l := by
  intro l
  induction l with
  | nil => intro b; exact Or.inl rfl
  | cons c cs ih =>
    intro b
    obtain ⟨bm, bs⟩ := b
    simp only [extractOneAux]
    split
    · rcases ih (c, score query c) with h | h
      · exact Or.inr (by simp [h])
      · exact Or.inr (List.mem_cons_of_mem _ h)
    · rcases ih (bm, bs) with h | h
      · exact Or.inl h
      · exact Or.inr (List.mem_cons_of_mem _ h)

theorem extractOne_mem (score : String → String → Nat) (query : String)
    (l : List String) (m : String) (s : Nat)
    (h : extractOne score query l = some (m, s)) : m ∈ l := by
  cases l with
  | nil => simp [extractOne] at h
  | cons c cs =>
    simp only [extractOne, Option.some.injEq] at h
    have h1 := extractOneAux_fst_mem score query cs (c, score query c)
    rw [h] at h1
    rcases h1 with h1 | h1
    · simp only at h1
      rw [h1]
      exact List.mem_cons_self c cs
    · exact List.mem_cons_of_mem _ h1

theorem matchOwned_subset (score : String → String → Nat) :
    ∀ (ub works owned : List String),
      matchOwned score ub works = some owned → ∀ x ∈ owned, x ∈ works := by
  intro ub
  induction ub with
  | nil =>
    intro works owned h x hx
    simp only [matchOwned, Option.some.injEq] at h
    rw [← h] at hx
    simp at hx
  | cons book rest ih =>
    intro works owned h x hx
    cases he : extractOne score book works with
    | none => simp [matchOwned, he] at h
    | some ms =>
      obtain ⟨m, s⟩ := ms
      cases hr : matchOwned score rest works with
      | none => simp [matchOwned, he, hr] at h
      | some o =>
        simp only [matchOwned, he, hr, Option.some.injEq] at h
        rw [← h] at hx
        by_cases hs : s > 80
        · rw [if_pos hs] at hx
          rcases List.mem_cons.1 hx with rfl | hx
          · exact extractOne_mem score book works x s he
          · exact ih works o hr x hx
        · rw [if_neg hs] at hx
          exact ih works o hr x hx

theorem find_missing_books_eq_false (score : String → String → Nat)
    (ub works owned : List String) (h : matchOwned score ub works = some owned) :
    find_missing_books score ub works false =
      some (owned, works.filter (notMem owned)) := by
  simp [find_missing_books, h]

theorem find_missing_books_false_inv (score : String → String → Nat)
    (ub works owned missing : List String)
    (h : find_missing_books score ub works false = some (owned, missing)) :
    matchOwned score ub works = some owned ∧
      missing = works.filter (notMem owned) := by
  cases hmo : matchOwned score ub works with
  | none => simp [find_missing_books, hmo] at h
  | some o =>
    rw [find_missing_books_eq_false score ub works o hmo] at h
    simp only [Option.some.injEq, Prod.mk.injEq] at h
    obtain ⟨rfl, rfl⟩ := h
    exact ⟨rfl, rfl⟩

theorem mem_uniqueFirstAux :
    ∀ (l seen : List String) (x : String),
      x ∈ uniqueFirstAux seen l ↔ x ∈ l ∧ x ∉ seen := by
  intro l
  induction l with
  | nil => intro seen x; simp [uniqueFirstAux]
  | cons a t ih =>
    intro seen x
    simp only [uniqueFirstAux]
    split
    · rename_i ha
      rw [ih seen x]
      constructor
      · rintro ⟨hx, hs⟩
        exact ⟨List.mem_cons_of_mem _ hx, hs⟩
      · rintro ⟨hx, hs⟩
        rcases List.mem_cons.1 hx with rfl | hx
        · exact absurd ha hs
        · exact ⟨hx, hs⟩
    · rename_i ha
      constructor
      · intro hx
        rcases List.mem_cons.1 hx with rfl | hx
        · exact ⟨List.mem_cons_self _ _, ha⟩
        · obtain ⟨hxt, hxs⟩ := (ih (a :: seen) x).1 hx
          exact ⟨List.mem_cons_of_mem _ hxt,
            fun hc => hxs (List.mem_cons_of_mem _ hc)⟩
      · rintro ⟨hx, hs⟩
        rcases List.mem_cons.1 hx with rfl | hx
        · exact List.mem_cons_self _ _
        · by_cases hxa : x = a
          · rw [hxa]; exact List.mem_cons_self _ _
          · exact List.mem_cons_of_mem _ ((ih (a :: seen) x).2
              ⟨hx, fun hc => by
                rcases List.mem_cons.1 hc with h | h
                · exact hxa h
                · exact hs h⟩)

theorem nodup_uniqueFirstAux :
    ∀ (l seen : List String), (uniqueFirstAux seen l).Nodup := by
  intro l
  induction l with
  | nil => intro seen; simp [uniqueFirstAux]
  | cons a t ih =>
    intro seen
    simp only [uniqueFirstAux]
    split
    · exact ih seen
    · refine List.Nodup.cons ?_ (ih (a :: seen))
      intro hc
      exact ((mem_uniqueFirstAux t (a :: seen) a).1 hc).2 (List.mem_cons_self _ _)

theorem nodup_uniqueFirst (l : List String) : (uniqueFirst l).Nodup :=
  nodup_uniqueFirstAux l []

theorem mem_uniqueFirst (l : List String) (x : String) :
    x ∈ uniqueFirst l ↔ x ∈ l := by
  rw [uniqueFirst, mem_uniqueFirstAux]
  simp

theorem mem_dropna (l : List (Option String)) (x : String) :
    x ∈ dropna l ↔ some x ∈ l := by
  simp [dropna, List.mem_filterMap]

theorem mem_of_getLast?_eq {l : List String} {a : String}
    (h : l.getLast? = some a) : a ∈ l := by
  obtain ⟨hne, rfl⟩ := List.mem_getLast?_eq_getLast h
  exact List.getLast_mem hne

theorem find_missing_books_inv (score : String → String → Nat)
    (ub works : List String) (flag : Bool) (owned missing : List String)
    (h : find_missing_books score ub works flag = some (owned, missing)) :
    matchOwned score ub works = some owned ∧
      ∀ x, x ∈ missing → x ∈ works.filter (notMem owned) := by
  cases hmo : matchOwned score ub works with
  | none => simp [find_missing_books, hmo] at h
  | some o =>
    cases flag with
    | false =>
      rw [find_missing_books_eq_false score ub works o hmo] at h
      simp only [Option.some.injEq, Prod.mk.injEq] at h
      obtain ⟨rfl, rfl⟩ := h
      exact ⟨rfl, fun x hx => hx⟩
    | true =>
      cases hgl : (works.filter (notMem o)).getLast? with
      | none =>
        simp [find_missing_books, hmo, hgl] at h
        obtain ⟨rfl, rfl⟩ := h
        exact ⟨rfl, fun x hx => hx⟩
      | some last =>
        simp [find_missing_books, hmo, hgl] at h
        obtain ⟨rfl, rfl⟩ := h
        refine ⟨rfl, fun x hx => ?_⟩
        rcases List.mem_cons.1 hx with rfl | hx
        · exact mem_of_getLast?_eq hgl
        · exact absurd hx (List.not_mem_nil x)

/-- Claim C1: the spec states that with an empty bibliography the gap
detector returns empty `ownedMatched` and empty `missing` regardless of the
owned titles.  The code instead raises a `TypeError` (modelled as `none`)
whenever the owned-titles list is non-empty, because
`process.extractOne(book, [])` returns `None` and the tuple unpacking
`match, score, _ = ...` fails.  Evaluation at the failing input
`user_books = ["Dune"]`, `bibliography = []`, for both flag values. -/
theorem find_missing_books_empty_bibliography_raises :
    find_missing_books wratioSpec ["Dune"] [] false = none ∧
      find_missing_books wratioSpec ["Dune"] [] true = none :=
  ⟨rfl, rfl⟩

/-- Claim C2: the spec states the gap detector always terminates normally
and never raises.  In fact, for every scorer, every non-empty owned-titles
list and both flag values, the code raises (result `none`) when the
bibliography is empty. -/
theorem find_missing_books_raises_on_nonempty_owned (score : String → String → Nat)
    (book : String) (rest : List String) (flag : Bool) :
    find_missing_books score (book :: rest) [] flag = none := rfl

/-- Claim C3, counterexample: owned titles `["Dune", "Dune"]` against
bibliography `["Dune", "Dune Messiah"]` yield an `ownedMatched` list of
length 2 (`["Dune", "Dune"]`), not a size-1 set as the claim states:
`owned` is a Python list and each duplicate appends. -/
theorem find_missing_books_duplicates_cex :
    find_missing_books wratioSpec ["Dune", "Dune"] ["Dune", "Dune Messiah"] false
        = some (["Dune", "Dune"], ["Dune Messiah"]) ∧
      (["Dune", "Dune"] : List String).length ≠ 1 :=
  ⟨rfl, by decide⟩

/-- Claim C3, amended: duplicate owned titles whose best accepted match is
the same bibliography entry each append that entry to `ownedMatched`, which
is a list, not a set; the set of distinct elements of `ownedMatched` is the
singleton of that entry, and `missing` is the bibliography filtered by
non-membership in it. -/
theorem find_missing_books_duplicates (score : String → String → Nat)
    (works : List String) (book m : String) (s : Nat)
    (h : extractOne score book works = some (m, s)) (hs : s > 80) :
    find_missing_books score [book, book] works false
        = some ([m, m], works.filter (notMem [m, m])) ∧
      (∀ x, x ∈ ([m, m] : List String) ↔ x = m) := by
  have hmo : matchOwned score [book, book] works = some [m, m] := by
    simp [matchOwned, h, hs]
  refine ⟨find_missing_books_eq_false score _ works _ hmo, ?_⟩
  intro x
  simp

theorem find_missing_books_duplicates_witness :
    (find_missing_books wratioSpec ["Dune", "Dune"] ["Dune", "Dune Messiah"] false
        = some (["Dune", "Dune"],
            (["Dune", "Dune Messiah"] : List String).filter (notMem ["Dune", "Dune"])) ∧
      (∀ x, x ∈ (["Dune", "Dune"] : List String) ↔ x = "Dune")) :=
  find_missing_books_duplicates wratioSpec ["Dune", "Dune Messiah"] "Dune" "Dune" 100
    rfl (by decide)

/-- Claim C4: the best-scoring bibliography candidate returned by
`extractOne` for an owned title is accepted into `ownedMatched` iff its
score is strictly greater than 80 (so a score of exactly 80 is rejected and
81 is accepted, as the witness checks at both boundary values). -/
theorem find_missing_books_threshold (score : String → String → Nat)
    (works : List String) (book m : String) (s : Nat)
    (h : extractOne score book works = some (m, s)) :
    find_missing_books score [book] works false
        = some ((if s > 80 then [m] else []),
            works.filter (notMem (if s > 80 then [m] else []))) ∧
      (m ∈ (if s > 80 then ([m] : List String) else []) ↔ s > 80) := by
  have hmo : matchOwned score [book] works = some (if s > 80 then [m] else []) := by
    simp [matchOwned, h]
  refine ⟨find_missing_books_eq_false score _ works _ hmo, ?_⟩
  by_cases hs : s > 80 <;> simp [hs]

theorem find_missing_books_threshold_witness :
    ((find_missing_books (fun _ _ => 81) ["A"] ["B"] false
        = some ((if 81 > 80 then ["B"] else []),
            (["B"] : List String).filter (notMem (if 81 > 80 then ["B"] else []))) ∧
      ("B" ∈ (if 81 > 80 then (["B"] : List String) else []) ↔ 81 > 80)) ∧
     (find_missing_books (fun _ _ => 80) ["A"] ["B"] false
        = some ((if 80 > 80 then ["B"] else []),
            (["B"] : List String).filter (notMem (if 80 > 80 then ["B"] else []))) ∧
      ("B" ∈ (if 80 > 80 then (["B"] : List String) else []) ↔ 80 > 80))) :=
  ⟨find_missing_books_threshold (fun _ _ => 81) ["B"] "A" "B" 81 rfl,
   find_missing_books_threshold (fun _ _ => 80) ["B"] "A" "B" 80 rfl⟩

/-- Claim C5: with `newest_only = false`, a normal (non-raising) result
partitions the bibliography: every matched title lies in the bibliography,
and a title is in the bibliography iff it is matched or missing. -/
theorem find_missing_books_partition (score : String → String → Nat)
    (ub works owned missing : List String)
    (h : find_missing_books score ub works false = some (owned, missing)) :
    (∀ x, x ∈ owned → x ∈ works) ∧
      (∀ x, (x ∈ owned ∨ x ∈ missing) ↔ x ∈ works) := by
  obtain ⟨hmo, rfl⟩ := find_missing_books_false_inv score ub works owned missing h
  refine ⟨matchOwned_subset score ub works owned hmo, ?_⟩
  intro x
  constructor
  · rintro (hx | hx)
    · exact matchOwned_subset score ub works owned hmo x hx
    · exact (List.mem_filter.1 hx).1
  · intro hx
    by_cases hxo : x ∈ owned
    · exact Or.inl hxo
    · exact Or.inr (List.mem_filter.2 ⟨hx, (notMem_iff owned x).2 hxo⟩)

theorem find_missing_books_partition_witness :
    (∀ x, x ∈ (["Dune"] : List String) → x ∈ (["Dune", "Dune Messiah"] : List String)) ∧
      (∀ x, (x ∈ (["Dune"] : List String) ∨ x ∈ (["Dune Messiah"] : List String)) ↔
        x ∈ (["Dune", "Dune Messiah"] : List String)) :=
  find_missing_books_partition wratioSpec ["Dune"] ["Dune", "Dune Messiah"]
    ["Dune"] ["Dune Messiah"] rfl

/-- Claim C6: for both values of `newest_only`, the matched titles and the
missing titles of a normal result are disjoint: no title is in both. -/
theorem find_missing_books_disjoint (score : String → String → Nat)
    (ub works : List String) (flag : Bool) (owned missing : List String)
    (h : find_missing_books score ub works flag = some (owned, missing)) :
    ∀ x, x ∈ owned → x ∉ missing := by
  obtain ⟨hmo, hsub⟩ := find_missing_books_inv score ub works flag owned missing h
  intro x hx hc
  exact (notMem_iff owned x).1 (List.mem_filter.1 (hsub x hc)).2 hx

theorem find_missing_books_disjoint_witness :
    "Dune" ∉ (["Dune Messiah"] : List String) :=
  find_missing_books_disjoint wratioSpec ["Dune"] ["Dune", "Dune Messiah"] true
    ["Dune"] ["Dune Messiah"] rfl "Dune" (by decide)

/-- Claim C7: when the `newest_only = false` run returns a non-empty
`missing` sequence, the `newest_only = true` run on the same inputs returns
the same `ownedMatched` and the singleton of the last element of that
`missing` sequence. -/
theorem find_missing_books_newest_only (score : String → String → Nat)
    (ub works owned missing : List String) (l : String)
    (h : find_missing_books score ub works false = some (owned, missing))
    (hl : missing.getLast? = some l) :
    find_missing_books score ub works true = some (owned, [l]) := by
  obtain ⟨hmo, rfl⟩ := find_missing_books_false_inv score ub works owned missing h
  simp [find_missing_books, hmo, hl]

theorem find_missing_books_newest_only_witness :
    find_missing_books wratioSpec ["Dune"] ["Dune", "Dune Messiah"] true
      = some (["Dune"], ["Dune Messiah"]) :=
  find_missing_books_newest_only wratioSpec ["Dune"] ["Dune", "Dune Messiah"]
    ["Dune"] ["Dune Messiah"] "Dune Messiah" rfl rfl

/-- Claim C8: the bibliography provider returns a list with no two
identical title strings, and on a non-success (non-200) response status it
returns the empty list instead of raising. -/
theorem get_author_works_contract (resp : Response) :
    (get_author_works resp).Nodup ∧
      (resp.status_code ≠ 200 → get_author_works resp = []) := by
  by_cases h : resp.status_code = 200
  · refine ⟨?_, fun hc => absurd h hc⟩
    simp only [get_author_works]
    rw [if_neg (by simp [h])]
    exact nodup_uniqueFirst _
  · refine ⟨?_, fun _ => ?_⟩
    · simp [get_author_works, h]
    · simp [get_author_works, h]

theorem get_author_works_contract_witness :
    (get_author_works ⟨404, [⟨some "A"⟩, ⟨some "A"⟩]⟩).Nodup ∧
      ((404 : Nat) ≠ 200 → get_author_works ⟨404, [⟨some "A"⟩, ⟨some "A"⟩]⟩ = []) :=
  get_author_works_contract ⟨404, [⟨some "A"⟩, ⟨some "A"⟩]⟩

/-- Claim C9, counterexample: the pipeline drops missing values per column,
not per row.  A row whose Author is missing still contributes its Title to
`user_books`, and a row whose Title is missing still contributes its Author
to `authors` — both contradicting the claim that such rows are dropped
whole. -/
theorem ui_pipeline_per_column_cex :
    user_books [⟨some "Dune", none⟩] = ["Dune"] ∧
      authors [⟨none, some "Herbert"⟩] = ["Herbert"] :=
  ⟨rfl, rfl⟩

/-- Claim C9, amended: missing values are dropped per column, independently:
a row's Title enters the owned-titles list iff its Title cell is present,
regardless of its Author cell; a row's Author is iterated iff its Author
cell is present, regardless of its Title cell; and the authors are
deduplicated before iteration. -/
theorem ui_pipeline_per_column (df : List Row) :
    (∀ x, x ∈ user_books df ↔ ∃ r ∈ df, r.title = some x) ∧
      (∀ a, a ∈ authors df ↔ ∃ r ∈ df, r.author = some a) ∧
      (authors df).Nodup := by
  refine ⟨?_, ?_, nodup_uniqueFirst _⟩
  · intro x
    simp only [user_books]
    rw [mem_dropna]
    simp [List.mem_map]
  · intro a
    simp only [authors]
    rw [mem_uniqueFirst, mem_dropna]
    simp [List.mem_map]

/-- Claim C10: with `newest_only = false` and a duplicate-free bibliography,
the `missing` sequence of a normal result has no duplicates and is a
subsequence of the bibliography in the same relative order. -/
theorem find_missing_books_missing_sublist (score : String → String → Nat)
    (ub works owned missing : List String) (hnd : works.Nodup)
    (h : find_missing_books score ub works false = some (owned, missing)) :
    missing.Sublist works ∧ missing.Nodup := by
  obtain ⟨hmo, rfl⟩ := find_missing_books_false_inv score ub works owned missing h
  exact ⟨List.filter_sublist works, hnd.filter _⟩

theorem find_missing_books_missing_sublist_witness :
    (["Dune Messiah"] : List String).Sublist ["Dune", "Dune Messiah"] ∧
      (["Dune Messiah"] : List String).Nodup :=
  find_missing_books_missing_sublist wratioSpec ["Dune"] ["Dune", "Dune Messiah"]
    ["Dune"] ["Dune Messiah"] (by decide) rfl
